import Mathlib

/-!
Shallow embedding of the poptimizer example-construction and forecasting
pipeline, covering `poptimizer/ml/examples.py`, the forecaster behaviour
fixed by `poptimizer/ml/tests/test_forecaster.py`, and the MOEX data
managers of `poptimizer/store/moex.py`.

Conventions of the embedding:
* Dates are integers (trading dates are totally ordered; the ISO string
  timestamps used by pandas are order-isomorphic to their integer codes).
* Securities inside row keys are numeric codes; the code order stands for
  the lexicographic ticker order used by the pandas MultiIndex.
* Dataframe cells are `Option ℚ`: `none` is a missing value (NaN).
* Python exceptions surface as `Option`/`Except` results.
-/

/-- A parameter value inside a feature-parameter dictionary
(`{"days": 20, "div_share": 0.0}, ...`). -/
inductive PVal where
  | int : ℤ → PVal
  | rat : ℚ → PVal
  | str : String → PVal
deriving DecidableEq, Repr

/-- A Python dict of feature parameters, insertion ordered. -/
abbrev DictP := List (String × PVal)

/-- `d[k]` lookup: first binding of the key, `none` on `KeyError`. -/
def dictGet (d : DictP) (k : String) : Option PVal :=
  (d.find? (fun p => p.1 = k)).map (·.2)

/-- `d[k] = v` assignment on a dict value: an existing key keeps its
position, a fresh key is appended (Python insertion order). -/
def dictSet (d : DictP) (k : String) (v : PVal) : DictP :=
  if d.any (fun p => p.1 = k) then
    d.map (fun p => if p.1 = k then (k, v) else p)
  else
    d ++ [(k, v)]

/-- Row key of the joined dataset: `(date, security)` — level 0 is the
date, level 1 the security code. -/
abbrev Key := ℤ × ℕ

/-- One provider output (or joined) dataframe: column names plus rows of
cells keyed by `(date, security)`. -/
structure Frame where
  cols : List String
  rows : List (Key × List (Option ℚ))
deriving DecidableEq

/-- A materialized feature provider (the `poptimizer.ml.feature` classes
are outside the covered source; per §6 of the spec a provider exposes its
name, column names, `get(params)` and `is_categorical(params)`). -/
structure MLFeature where
  name : String
  col_names : List String
  get : DictP → Frame
  is_categorical : DictP → List Bool

/-- Lexicographic (date, security) order of the pandas MultiIndex. -/
def keyLE (a b : Key) : Prop :=
  a.1 < b.1 ∨ (a.1 = b.1 ∧ a.2 ≤ b.2)

instance : DecidableRel keyLE := fun a b => by
  unfold keyLE; infer_instance

instance : IsTotal Key keyLE := by
  constructor
  intro a b
  unfold keyLE
  omega

instance : IsTrans Key keyLE := by
  constructor
  intro a b c hab hbc
  unfold keyLE at *
  omega

/-- The row cells a frame contributes for a key of the union index:
its own row when present, a full-width run of NaN otherwise. -/
def lookupRow (f : Frame) (k : Key) : List (Option ℚ) :=
  match f.rows.find? (fun r => r.1 = k) with
  | some r => r.2
  | none => f.cols.map (fun _ => none)

/-- `pd.concat(data, axis=1)`: outer join of the provider frames on the
`(date, security)` key; the union index is sorted lexicographically and
each frame contributes its columns in list order, with NaN gaps. -/
def concatFrames (fs : List Frame) : Frame :=
  let keys := ((fs.flatMap (fun f => f.rows.map (·.1))).dedup).insertionSort keyLE
  { cols := fs.flatMap (·.cols),
    rows := keys.map (fun k => (k, fs.flatMap (fun f => lookupRow f k))) }

/-- `df.dropna(axis=0)`: drop every row containing a missing value. -/
def dropna (df : Frame) : Frame :=
  { cols := df.cols, rows := df.rows.filter (fun r => r.2.all Option.isSome) }

/-- `examples.Examples`: the instance state set up by `__init__`. -/
structure Examples where
  tickers : List String
  date : ℤ
  params : List (String × DictP)
  test_labels_params : DictP
  features : List MLFeature

/-- `Examples.__init__`: deep-copies `params[0][1]`, forces `days = 1`
for the test-label provider, and instantiates the provider list
`[test_label] + [provider(name, p) for (name, p) in params]` through the
`poptimizer.ml.feature` registry (`getattr(feature, cls_name)`), which is
passed in because that module is outside the covered source. `none`
models the `IndexError` on an empty parameter list. -/
def mkExamples (registry : String → List String → ℤ → DictP → MLFeature)
    (tickers : List String) (date : ℤ) (params : List (String × DictP)) :
    Option Examples :=
  match params with
  | [] => none
  | (n0, p0) :: rest =>
    let tlp := dictSet p0 "days" (.int 1)
    some
      { tickers := tickers
        date := date
        params := (n0, p0) :: rest
        test_labels_params := tlp
        features :=
          registry n0 tickers date tlp ::
            ((n0, p0) :: rest).map (fun np => registry np.1 tickers date np.2) }

/-- `Examples.get_features_names`: flattened `col_names` of
`self._features[2:]`. -/
def get_features_names (ex : Examples) : List String :=
  (ex.features.drop 2).flatMap (·.col_names)

/-- `Examples.categorical_features`: flags from
`zip(features[2:], params[1:])`, returning the positions of `True`. -/
def categorical_features (ex : Examples) (ps : List (String × DictP)) :
    List ℕ :=
  let flags :=
    ((ex.features.drop 2).zip (ps.drop 1)).flatMap
      (fun fp => fp.1.is_categorical fp.2.2)
  flags.enum.filterMap (fun nb => if nb.2 then some nb.1 else none)

/-- `Examples.get_all`: `[features[0].get(test_labels_params)]` plus
`feat.get(p)` for `zip(features[1:], params)`, concatenated on axis 1. -/
def get_all (ex : Examples) (ps : List (String × DictP)) : Frame :=
  concatFrames
    ((ex.features.take 1).map (fun f => f.get ex.test_labels_params) ++
      ((ex.features.drop 1).zip ps).map (fun fp => fp.1.get fp.2.2))

/-- `1 / scaler ** 2` for one weight entry. `none` stands for a result
that is not a finite number: NaN from a missing scaler, or the infinity
numpy produces for a zero scaler. -/
def invSqWeight : Option ℚ → Option ℚ
  | none => none
  | some x => if x = 0 then none else some (1 / x ^ 2)

/-- The dict handed to `catboost.Pool`: `data` keeps the row keys so date
slicing remains visible; `data` is `df.iloc[:, 2:]`, `label` is
`df.iloc[:, 1]`, `weight` is `1 / df.iloc[:, 2] ** 2`. -/
structure Pool where
  data : List (Key × List (Option ℚ))
  label : Option (List (Option ℚ))
  weight : List (Option ℚ)
  cat_features : List ℕ
  feature_names : List String
deriving DecidableEq

/-- Pool dict built from a block of joined rows (label present). -/
def mkTrainPool (rows : List (Key × List (Option ℚ))) (cols : List String)
    (cats : List ℕ) : Pool :=
  { data := rows.map (fun r => (r.1, r.2.drop 2))
    label := some (rows.map (fun r => r.2.getD 1 none))
    weight := rows.map (fun r => invSqWeight (r.2.getD 2 none))
    cat_features := cats
    feature_names := cols.drop 2 }

/-- Pool dict for the prediction block (`label=None`). -/
def mkPredictPool (rows : List (Key × List (Option ℚ))) (cols : List String)
    (cats : List ℕ) : Pool :=
  { data := rows.map (fun r => (r.1, r.2.drop 2))
    label := none
    weight := rows.map (fun r => invSqWeight (r.2.getD 2 none))
    cat_features := cats
    feature_names := cols.drop 2 }

/-- `TRAIN_VAL_SPLIT = 0.9`; `int(len(dates) * 0.9)` equals `9 * n / 10`
in exact arithmetic for every list length the pipeline can see. -/
def trainValSplitIdx (n : ℕ) : ℕ := 9 * n / 10

/-- Python/numpy indexing with a possibly negative index:
`l[i]` is `l[len + i]` for negative `i`, `IndexError` out of range. -/
def pyIdx (l : List α) (i : ℤ) : Option α :=
  if 0 ≤ i then l.get? i.toNat
  else if (-i).toNat ≤ l.length then l.get? (l.length - (-i).toNat)
  else none

/-- The per-row date list `df.index.get_level_values(0)` of a frame. -/
def frameDates (df : Frame) : List ℤ :=
  df.rows.map (fun r => r.1.1)

/-- `label_days = params[0][1]["days"]` used as an index must be a Python
int. -/
def pvalInt : PVal → Option ℤ
  | .int z => some z
  | _ => none

/-- The chronological split of `Examples.train_val_pool_params`:
`val_start = dates[int(len(dates) * 0.9)]`,
`train_end = dates[dates < val_start].unique()[-label_days]`,
`df_val = df[dates >= val_start]`, `df_train = df.loc[dates <= train_end]`.
Returns `(train rows, val rows)`. -/
def trainValSplit (df : Frame) (label_days : ℤ) :
    Option (List (Key × List (Option ℚ)) × List (Key × List (Option ℚ))) := do
  let v ← (frameDates df).get? (trainValSplitIdx (frameDates df).length)
  let te ← pyIdx (((frameDates df).filter (fun d => d < v)).dedup)
    (-label_days)
  pure (df.rows.filter (fun r => r.1.1 ≤ te),
        df.rows.filter (fun r => v ≤ r.1.1))

/-- `Examples.train_val_pool_params`: joined dataset under `params`, rows
with missing values dropped, chronological 90 % split with the
`label_days` rollback, and the two pool dicts. `none` models the Python
errors (empty params, missing or non-integer `"days"`, index errors). -/
def train_val_pool_params (ex : Examples) (ps : List (String × DictP)) :
    Option (Pool × Pool) := do
  let p0 ← ps.head?
  let daysVal ← dictGet p0.2 "days"
  let label_days ← pvalInt daysVal
  let blocks ← trainValSplit (dropna (get_all ex ps)) label_days
  pure (mkTrainPool blocks.1 (dropna (get_all ex ps)).cols
          (categorical_features ex ps),
        mkTrainPool blocks.2 (dropna (get_all ex ps)).cols
          (categorical_features ex ps))

/-- `Examples.train_predict_pool_params`: joined dataset under the stored
parameters; the prediction pool is the block of rows at the as-of date
taken before any NaN dropping, the training pool is the dataset with
missing rows dropped. -/
def train_predict_pool_params (ex : Examples) : Pool × Pool :=
  (mkTrainPool (dropna (get_all ex ex.params)).rows
    (get_all ex ex.params).cols (categorical_features ex ex.params),
   mkPredictPool
    ((get_all ex ex.params).rows.filter (fun r => r.1.1 = ex.date))
    (get_all ex ex.params).cols (categorical_features ex ex.params))

/-- Diagonal of a matrix given as a list of rows (`np.diag`). -/
def diag (m : List (List ℚ)) : List ℚ :=
  m.enum.map (fun ir => ir.2.getD ir.1 0)

/-- The first (normalization) column `pool.data[:, 0]` of the prediction
pool data. -/
def poolBasis (poolData : List (List ℚ)) : List ℚ :=
  poolData.map (fun r => r.getD 0 0)

/-- Modelled from the spec: the tight relative tolerance of
`forecaster.validate_cov` (`forecaster.py` is absent from `src/`; §4.2
requires "roughly 1e-2 relative or less", tight enough to catch a 0.1
deviation on a magnitude-9 entry). -/
def covRTol : ℚ := 1 / 100

/-- Modelled from the spec: elementwise closeness of the diagonal to the
normalization basis within the tight relative tolerance; lists of
different lengths never compare close. -/
def covClose (a b : List ℚ) : Bool :=
  a.length == b.length &&
    (a.zip b).all (fun xy => |xy.1 - xy.2| ≤ covRTol * |xy.2|)

/-- The `ConsistencyError` message asserted by
`test_forecaster.test_validate_cov_error`. -/
def covMismatchMsg : String :=
  "Расчетная ковариация не совпадает с использовавшейся для нормирования"

/-- Modelled from the spec: `forecaster.validate_cov` (absent from
`src/`; behaviour fixed by §4.2 and `test_validate_cov_error`): checks
`diag(cov)` against `pool.data[:, 0] ** 2` within the tight relative
tolerance and fails with the `ConsistencyError` message otherwise. -/
def validate_cov (cov : List (List ℚ)) (poolData : List (List ℚ)) :
    Except String Unit :=
  if covClose (diag cov) ((poolBasis poolData).map (fun x => x ^ 2)) then
    Except.ok ()
  else
    Except.error covMismatchMsg

/-- Modelled from the spec: the forecast step that computes the shrinkage
covariance calls `validate_cov` on the result before returning it (§4.2:
a mismatch "must abort the forecast rather than proceed"). -/
def covChecked (cov : List (List ℚ)) (poolData : List (List ℚ)) :
    Except String (List (List ℚ)) := do
  validate_cov cov poolData
  pure cov

/-- The parameter set stored in a `Forecast`: the shape of `PARAMS` in
`test_forecaster.py` — a `data` list of per-provider dicts and a flat
`model` dict of hyperparameters. -/
structure ForecastParams where
  data : List (String × List (String × ℚ))
  model : List (String × ℚ)
deriving DecidableEq

/-- The `Forecast` value of `portfolio.metrics` as constructed in
`test_forecaster.py`: date, security tuple, mean, covariance,
diagnostics and the exact parameter set used. -/
structure Forecast where
  date : ℤ
  tickers : List String
  mean : List ℚ
  cov : List (List ℚ)
  feature_importance : List ℚ
  r : ℚ
  r_rang : ℚ
  t : ℚ
  average_cor : ℚ
  shrinkage : ℚ
  params : ForecastParams
deriving DecidableEq

/-- Modelled from the spec: `forecaster.validate_cache` (absent from
`src/`; behaviour fixed by §4.3 and `test_validate_cache`/
`test_non_validate_cache`): true iff the cached tickers, date and deep
parameter set all equal the requested ones. -/
def validate_cache (f : Forecast) (tickers : List String) (date : ℤ)
    (ps : ForecastParams) : Bool :=
  decide (f.tickers = tickers) && decide (f.date = date) &&
    decide (f.params = ps)

/-- `store/moex.py`: name of the securities data in the misc collection. -/
def SECURITIES : String := "securities"

/-- `store/moex.py`: name of the listing data in the misc collection. -/
def LISTING : String := "listing"

/-- `store/moex.py`: name of the total-return index. -/
def INDEX : String := "MCFTRR"

/-- The `POptimizerError` message raised by the `_download` methods for an
unrecognized item: `f"Отсутствуют данные {collection.full_name}.{item}"`. -/
def downloadErrMsg (fullName item : String) : String :=
  "Отсутствуют данные " ++ fullName ++ "." ++ item

/-- `Securities._download`: rejects any item other than `SECURITIES`,
otherwise formats the board data fetched from MOEX. The fetched rows and
the `manager.data_formatter` step (both outside this module) are passed
in as parameters. -/
def Securities_download (fullName : String)
    (format : List (List (String × String)) → List (List (String × String)))
    (fetched : List (List (String × String))) (item : String) :
    Except String (List (List (String × String))) :=
  if item ≠ SECURITIES then Except.error (downloadErrMsg fullName item)
  else Except.ok (format fetched)

/-- `SecuritiesListing._download`: rejects any item other than `LISTING`,
otherwise parses the downloaded CSV (the download/parse step is passed in
as a parameter). -/
def SecuritiesListing_download (fullName : String)
    (readCsv : Unit → List (List (String × String))) (item : String) :
    Except String (List (List (String × String))) :=
  if item ≠ LISTING then Except.error (downloadErrMsg fullName item)
  else Except.ok (readCsv ())

/-- `Index._download`: rejects any item other than `INDEX`, otherwise
fetches the index history starting from the last stored date (the
`apimoex` fetch and formatting are passed in as a parameter of the last
index). -/
def Index_download (fullName : String)
    (fetch : Option ℤ → List (List (String × String)))
    (item : String) (last_index : Option ℤ) :
    Except String (List (List (String × String))) :=
  if item ≠ INDEX then Except.error (downloadErrMsg fullName item)
  else Except.ok (fetch last_index)

/-- One candle row of `Quotes._download`: `_clean_up` reads the trade
date `begin` (an integer code for the datetime string, order-isomorphic)
and the turnover `value`; `other` stands opaquely for the remaining
open/close/high/low fields carried along. -/
structure Candle where
  begin : ℤ
  value : ℚ
  other : ℕ
deriving DecidableEq

/-- The sort key order of `data.sort(key=lambda x: (x["begin"], -x["value"]))`:
ascending trade date, descending turnover inside one date. -/
def candleLE (a b : Candle) : Prop :=
  a.begin < b.begin ∨ (a.begin = b.begin ∧ b.value ≤ a.value)

instance : DecidableRel candleLE := fun a b => by
  unfold candleLE; infer_instance

instance : IsTotal Candle candleLE := by
  constructor
  intro a b
  unfold candleLE
  rcases lt_trichotomy a.begin b.begin with h | h | h
  · exact Or.inl (Or.inl h)
  · rcases le_total b.value a.value with hv | hv
    · exact Or.inl (Or.inr ⟨h, hv⟩)
    · exact Or.inr (Or.inr ⟨h.symm, hv⟩)
  · exact Or.inr (Or.inl h)

instance : IsTrans Candle candleLE := by
  constructor
  intro a b c hab hbc
  unfold candleLE at *
  rcases hab with h | ⟨he, hv⟩ <;> rcases hbc with h' | ⟨he', hv'⟩
  · exact Or.inl (h.trans h')
  · exact Or.inl (he' ▸ h)
  · exact Or.inl (he ▸ h')
  · exact Or.inr ⟨he.trans he', hv'.trans hv⟩

/-- The deduplication loop of `Quotes._clean_up`: walk the sorted rows,
append a row only when its `begin` differs from the last appended row's
`begin`. `last` is the last appended row. -/
def cleanGo (last : Candle) : List Candle → List Candle
  | [] => []
  | r :: rest =>
    if r.begin = last.begin then cleanGo last rest
    else r :: cleanGo r rest

/-- `Quotes._clean_up`: sort by `(begin, -value)`, then keep the first
row of every run of equal `begin` values. -/
def clean_up (data : List Candle) : List Candle :=
  match data.insertionSort candleLE with
  | [] => []
  | r :: rest => r :: cleanGo r rest

/-- Follows the spec's words (for comparison with the source):
"a chronological split point at the 90th percentile of distinct dates"
— the 90 %-position entry of the deduplicated date list of the cleaned
dataset. -/
def specDistinctSplit (df : Frame) : Option ℤ :=
  let u := (df.rows.map (fun r => r.1.1)).dedup
  u.get? (trainValSplitIdx u.length)

/-- Follows the spec's words (for comparison with the source):
"flattened list of column names contributed by predictive providers only
(excludes test-label, label, scaler)" — the providers after the first
three. -/
def specFeatureNames (ex : Examples) : List String :=
  (ex.features.drop 3).flatMap (·.col_names)

/-- A provider with a fixed output table, for concrete instances. -/
def constFeature (name : String) (cols : List String)
    (table : List (Key × List (Option ℚ))) : MLFeature :=
  { name := name
    col_names := cols
    get := fun _ => { cols := cols, rows := table }
    is_categorical := fun _ => cols.map (fun _ => false) }

/-- A one-column table with the given value at each listed key. -/
def constTable (keys : List Key) (v : ℚ) : List (Key × List (Option ℚ)) :=
  keys.map (fun k => (k, [some v]))

/-- Keys of the concrete split instances: one security, dates 1 … 10. -/
def keysTen : List Key := (List.range 10).map (fun i => ((i : ℤ) + 1, 0))

/-- Parameter list of the concrete split instances: production label with
`days = 2`, then the scaler. -/
def psTen : List (String × DictP) :=
  [("Label", [("days", PVal.int 2)]), ("Scaler", [("days", PVal.int 150)])]

/-- Concrete `Examples` instance over ten dates for the split claims. -/
def exTen : Examples :=
  { tickers := ["T"]
    date := 10
    params := psTen
    test_labels_params := [("days", PVal.int 1)]
    features :=
      [constFeature "Label" ["LABEL"] (constTable keysTen 1),
       constFeature "Label" ["LABEL"] (constTable keysTen 2),
       constFeature "STD" ["STD"] (constTable keysTen 3)] }

/-- Keys of the percentile instance: seventeen securities on date 1, one
security on dates 2, 3 and 4 — twenty rows, four distinct dates. -/
def keysSkew : List Key :=
  (List.range 17).map (fun i => ((1 : ℤ), i)) ++ [(2, 0), (3, 0), (4, 0)]

/-- Parameter list of the percentile instance (`days = 1`). -/
def psSkew : List (String × DictP) :=
  [("Label", [("days", PVal.int 1)]), ("Scaler", [("days", PVal.int 150)])]

/-- Concrete `Examples` instance whose row-position 90 % date differs
from the 90 % date of the distinct-date list. -/
def exSkew : Examples :=
  { tickers := ["T"]
    date := 4
    params := psSkew
    test_labels_params := [("days", PVal.int 1)]
    features :=
      [constFeature "Label" ["LABEL"] (constTable keysSkew 1),
       constFeature "Label" ["LABEL"] (constTable keysSkew 2),
       constFeature "STD" ["STD"] (constTable keysSkew 3)] }

/-- Concrete `Examples` instance for the scaler-weight claim: the scaler
provider reports a zero on date 1 and has no row at the as-of date 3. -/
def exScaler : Examples :=
  { tickers := ["T"]
    date := 3
    params := psSkew
    test_labels_params := [("days", PVal.int 1)]
    features :=
      [constFeature "Label" ["LABEL"] (constTable [(1, 0), (2, 0), (3, 0)] 1),
       constFeature "Label" ["LABEL"] (constTable [(1, 0), (2, 0), (3, 0)] 2),
       constFeature "STD" ["STD"] [((1, 0), [some 0]), ((2, 0), [some 5])]] }

/-- Concrete `Examples` instance with one predictive provider after the
scaler, for the feature-name claims. -/
def exNames : Examples :=
  { tickers := ["T"]
    date := 1
    params :=
      [("Label", [("days", PVal.int 2)]), ("Scaler", [("days", PVal.int 150)]),
       ("Mom12m", [("days", PVal.int 252)])]
    test_labels_params := [("days", PVal.int 1)]
    features :=
      [constFeature "Label" ["LABEL"] (constTable [(1, 0)] 1),
       constFeature "Label" ["LABEL"] (constTable [(1, 0)] 2),
       constFeature "STD" ["STD"] (constTable [(1, 0)] 3),
       constFeature "Mom12m" ["MOM"] (constTable [(1, 0)] 4)] }

lemma find?_map_set (d : DictP) (k : String) (v : PVal)
    (h : d.any (fun p => p.1 = k) = true) :
    (d.map (fun p => if p.1 = k then (k, v) else p)).find?
      (fun p => decide (p.1 = k)) = some (k, v) := by
  induction d with
  | nil => simp at h
  | cons a t ih =>
    by_cases ha : a.1 = k
    · simp [ha]
    · simp only [List.any_cons, decide_eq_true_eq, ha, false_or] at h
      simpa [ha] using ih h

lemma dictGet_dictSet_same (d : DictP) (k : String) (v : PVal) :
    dictGet (dictSet d k v) k = some v := by
  unfold dictGet dictSet
  by_cases h : d.any (fun p => p.1 = k) = true
  · rw [if_pos h, find?_map_set d k v h]
    rfl
  · rw [if_neg h, List.find?_append]
    have hnone : d.find? (fun p => decide (p.1 = k)) = none := by
      rw [List.find?_eq_none]
      intro p hp
      simp only [List.any_eq_true, decide_eq_true_eq] at h
      simp only [decide_eq_true_eq]
      exact fun hk => h ⟨p, hp, hk⟩
    simp [hnone]

lemma find?_map_set_other (d : DictP) (k k' : String) (v : PVal)
    (h : k' ≠ k) :
    (d.map (fun p => if p.1 = k then (k, v) else p)).find?
        (fun p => decide (p.1 = k')) =
      d.find? (fun p => decide (p.1 = k')) := by
  induction d with
  | nil => rfl
  | cons a t ih =>
    rw [List.map_cons]
    by_cases ha : a.1 = k
    · rw [if_pos ha]
      rw [List.find?_cons_of_neg _ (by simp [Ne.symm h]),
        List.find?_cons_of_neg _ (by simp [ha, Ne.symm h])]
      exact ih
    · rw [if_neg ha]
      by_cases ha' : a.1 = k'
      · rw [List.find?_cons_of_pos _ (by simp [ha']),
          List.find?_cons_of_pos _ (by simp [ha'])]
      · rw [List.find?_cons_of_neg _ (by simp [ha']),
          List.find?_cons_of_neg _ (by simp [ha'])]
        exact ih

lemma dictGet_dictSet_other (d : DictP) (k : String) (v : PVal) (k' : String)
    (h : k' ≠ k) : dictGet (dictSet d k v) k' = dictGet d k' := by
  unfold dictGet dictSet
  by_cases hany : d.any (fun p => p.1 = k) = true
  · rw [if_pos hany, find?_map_set_other d k k' v h]
  · rw [if_neg hany, List.find?_append]
    have : List.find? (fun p => decide (p.1 = k')) [(k, v)] = none := by
      simp [Ne.symm h]
    rw [this]
    cases d.find? (fun p => decide (p.1 = k')) <;> rfl

/-- C9: for each MOEX data manager (`Securities`, `SecuritiesListing`,
`Index`), `_download` with an item other than the manager's one
recognized key returns the `POptimizerError` immediately — the error
names the offending dataset and there is no retry branch — while the
recognized key never produces this error and yields the fetched data. -/
theorem thm_C9 (fullName : String)
    (format : List (List (String × String)) → List (List (String × String)))
    (fetched : List (List (String × String)))
    (readCsv : Unit → List (List (String × String)))
    (fetch : Option ℤ → List (List (String × String)))
    (item : String) (last_index : Option ℤ) :
    (item ≠ SECURITIES →
      Securities_download fullName format fetched item =
        Except.error (downloadErrMsg fullName item)) ∧
    Securities_download fullName format fetched SECURITIES =
      Except.ok (format fetched) ∧
    (item ≠ LISTING →
      SecuritiesListing_download fullName readCsv item =
        Except.error (downloadErrMsg fullName item)) ∧
    SecuritiesListing_download fullName readCsv LISTING =
      Except.ok (readCsv ()) ∧
    (item ≠ INDEX →
      Index_download fullName fetch item last_index =
        Except.error (downloadErrMsg fullName item)) ∧
    Index_download fullName fetch INDEX last_index =
      Except.ok (fetch last_index) ∧
    downloadErrMsg fullName item =
      "Отсутствуют данные " ++ fullName ++ "." ++ item := by
  refine ⟨fun h => ?_, ?_, fun h => ?_, ?_, fun h => ?_, ?_, rfl⟩ <;>
    simp [Securities_download, SecuritiesListing_download, Index_download, *]

theorem thm_C9_witness :
    Securities_download "misc" id [] "quotes" =
      Except.error (downloadErrMsg "misc" "quotes") ∧
    SecuritiesListing_download "misc" (fun _ => []) "securities" =
      Except.error (downloadErrMsg "misc" "securities") ∧
    Index_download "misc" (fun _ => []) "IMOEX" none =
      Except.error (downloadErrMsg "misc" "IMOEX") :=
  ⟨(thm_C9 "misc" id [] (fun _ => []) (fun _ => []) "quotes" none).1
      (by decide),
   (thm_C9 "misc" id [] (fun _ => []) (fun _ => []) "securities" none).2.2.1
      (by decide),
   (thm_C9 "misc" id [] (fun _ => []) (fun _ => []) "IMOEX" none).2.2.2.2.1
      (by decide)⟩

/-- C7: `validate_cache` is reflexive, and it is true exactly when the
cached forecast's ticker tuple, date and deeply-compared parameter set
all equal the requested ones — so changing any one of them (a single
nested hyperparameter included) makes it false, and it is a pure
predicate. -/
theorem thm_C7 :
    (∀ f : Forecast, validate_cache f f.tickers f.date f.params = true) ∧
    ∀ (f : Forecast) (s : List String) (d : ℤ) (p : ForecastParams),
      validate_cache f s d p = true ↔
        f.tickers = s ∧ f.date = d ∧ f.params = p := by
  constructor
  · intro f
    simp [validate_cache]
  · intro f s d p
    simp [validate_cache, and_assoc]

instance instDecEqExcept {ε α : Type} [DecidableEq ε] [DecidableEq α] :
    DecidableEq (Except ε α) := fun a b =>
  match a, b with
  | .ok x, .ok y =>
    if h : x = y then isTrue (by rw [h]) else isFalse (by simp [h])
  | .error x, .error y =>
    if h : x = y then isTrue (by rw [h]) else isFalse (by simp [h])
  | .ok _, .error _ => isFalse (by simp)
  | .error _, .ok _ => isFalse (by simp)

lemma mem_zip_self {l : List ℚ} {p : ℚ × ℚ} (h : p ∈ l.zip l) : p.1 = p.2 := by
  induction l with
  | nil => simp at h
  | cons a t ih =>
    rcases List.mem_cons.mp h with h | h
    · rw [h]
    · exact ih h

/-- C4: `validate_cov` succeeds when the covariance diagonal equals the
squared normalization column exactly; it fails with the
`ConsistencyError` message whenever some diagonal entry deviates from
the squared basis entry by more than the tight relative tolerance — in
particular on diag `[1, 4, 9.1]` against basis `[1, 4, 9]` — and the
forecast step propagates the error instead of proceeding. -/
theorem thm_C4 :
    (∀ cov poolData, diag cov = (poolBasis poolData).map (fun x => x ^ 2) →
      validate_cov cov poolData = Except.ok ()) ∧
    (∀ cov poolData x y,
      (x, y) ∈ (diag cov).zip ((poolBasis poolData).map (fun x => x ^ 2)) →
      covRTol * |y| < |x - y| →
      validate_cov cov poolData = Except.error covMismatchMsg) ∧
    validate_cov [[1, 0, 0], [0, 4, 0], [0, 0, (91 : ℚ) / 10]]
        [[1, 0], [2, 0], [3, 0]] = Except.error covMismatchMsg ∧
    ∀ cov poolData, validate_cov cov poolData = Except.error covMismatchMsg →
      covChecked cov poolData = Except.error covMismatchMsg := by
  have hgen : ∀ cov poolData x y,
      (x, y) ∈ (diag cov).zip ((poolBasis poolData).map (fun x => x ^ 2)) →
      covRTol * |y| < |x - y| →
      validate_cov cov poolData = Except.error covMismatchMsg := by
    intro cov poolData x y hmem hfar
    have hclose : covClose (diag cov)
        ((poolBasis poolData).map (fun x => x ^ 2)) = false := by
      unfold covClose
      rw [Bool.and_eq_false_iff]
      right
      rw [Bool.eq_false_iff]
      intro hall
      rw [List.all_eq_true] at hall
      have := hall (x, y) hmem
      simp only [decide_eq_true_eq] at this
      exact absurd this (not_le.mpr hfar)
    simp [validate_cov, hclose]
  refine ⟨?_, hgen, ?_, ?_⟩
  · intro cov poolData h
    have hclose : covClose (diag cov)
        ((poolBasis poolData).map (fun x => x ^ 2)) = true := by
      rw [h]
      unfold covClose
      refine (Bool.and_eq_true _ _).mpr ⟨by simp, ?_⟩
      rw [List.all_eq_true]
      intro p hp
      have := mem_zip_self hp
      simp only [this, sub_self, abs_zero, decide_eq_true_eq]
      exact mul_nonneg (by norm_num [covRTol]) (abs_nonneg _)
    simp [validate_cov, hclose]
  · apply hgen _ _ ((91 : ℚ) / 10) 9
    · norm_num [diag, poolBasis, List.enum, List.enumFrom, List.getD,
        List.zip, List.zipWith]
    · rw [covRTol]
      norm_num [abs_of_nonneg]
  · intro cov poolData h
    unfold covChecked
    rw [h]
    rfl

theorem thm_C4_witness :
    validate_cov [[4, 0], [0, 9]] [[2, 5], [3, 5]] = Except.ok () ∧
    validate_cov [[1, 0, 0], [0, 4, 0], [0, 0, (91 : ℚ) / 10]]
        [[1, 0], [2, 0], [3, 0]] = Except.error covMismatchMsg ∧
    covChecked [[1, 0, 0], [0, 4, 0], [0, 0, (91 : ℚ) / 10]]
        [[1, 0], [2, 0], [3, 0]] = Except.error covMismatchMsg :=
  ⟨thm_C4.1 [[4, 0], [0, 9]] [[2, 5], [3, 5]] (by decide),
   thm_C4.2.2.1,
   thm_C4.2.2.2 _ _ thm_C4.2.2.1⟩

/-- C8: constructing an `Examples` set forces `days = 1` only on the
deep-copied test-label parameters: every other key of the copy matches
the caller's first-entry parameters, the stored parameter list is the
caller's list unchanged, the production-label provider (features[1]) is
built from the original first-entry parameters, and whenever the
configured horizon differs from one day the test-label configuration
genuinely differs from the production-label configuration (no
aliasing). -/
theorem thm_C8 (registry : String → List String → ℤ → DictP → MLFeature)
    (tickers : List String) (date : ℤ) (n0 : String) (p0 : DictP)
    (rest : List (String × DictP)) (ex : Examples)
    (h : mkExamples registry tickers date ((n0, p0) :: rest) = some ex) :
    dictGet ex.test_labels_params "days" = some (PVal.int 1) ∧
    (∀ k, k ≠ "days" →
      dictGet ex.test_labels_params k = dictGet p0 k) ∧
    ex.params = (n0, p0) :: rest ∧
    ex.features.get? 1 = some (registry n0 tickers date p0) ∧
    ∀ w, dictGet p0 "days" = some w → w ≠ PVal.int 1 →
      dictGet ex.test_labels_params "days" ≠ dictGet p0 "days" := by
  simp only [mkExamples, Option.some.injEq] at h
  subst h
  refine ⟨dictGet_dictSet_same p0 "days" (PVal.int 1),
    fun k hk => dictGet_dictSet_other p0 "days" (PVal.int 1) k hk, rfl, rfl,
    ?_⟩
  intro w hw hw1
  rw [dictGet_dictSet_same p0 "days" (PVal.int 1), hw]
  intro hcontr
  exact hw1 (Option.some.inj hcontr).symm

/-- Registry used by the concrete witnesses: providers with fixed
single-row outputs. -/
def regW : String → List String → ℤ → DictP → MLFeature :=
  fun n _ _ _ => constFeature n [n] (constTable [(1, 0)] 1)

/-- Fallback `Examples` value for extracting `Option` results. -/
def emptyExamples : Examples :=
  { tickers := [], date := 0, params := [], test_labels_params := [],
    features := [] }

/-- Parameter list of the construction witness (`days = 20`). -/
def psW : List (String × DictP) :=
  [("Label", [("days", PVal.int 20), ("div_share", PVal.rat 0)]),
   ("Scaler", [("days", PVal.int 150)])]

/-- The `Examples` instance the construction witness builds. -/
def exW : Examples := (mkExamples regW ["A"] 1 psW).getD emptyExamples

theorem thm_C8_witness :
    dictGet exW.test_labels_params "days" = some (PVal.int 1) ∧
    dictGet exW.test_labels_params "div_share" =
      dictGet [("days", PVal.int 20), ("div_share", PVal.rat 0)]
        "div_share" ∧
    exW.params = psW ∧
    dictGet exW.test_labels_params "days" ≠
      dictGet [("days", PVal.int 20), ("div_share", PVal.rat 0)] "days" :=
  have h := thm_C8 regW ["A"] 1 "Label"
    [("days", PVal.int 20), ("div_share", PVal.rat 0)]
    [("Scaler", [("days", PVal.int 150)])] exW rfl
  ⟨h.1, h.2.1 "div_share" (by decide), h.2.2.1,
   h.2.2.2.2 (PVal.int 20) (by decide) (by decide)⟩

lemma concatFrames_cols (fs : List Frame) :
    (concatFrames fs).cols = fs.flatMap (·.cols) := rfl

lemma cols_of_zip_get (fs : List MLFeature) (qs : List (String × DictP))
    (hlen : qs.length = fs.length)
    (hc : ∀ f ∈ fs, ∀ p, (f.get p).cols = f.col_names) :
    ((fs.zip qs).map (fun fp => fp.1.get fp.2.2)).flatMap Frame.cols =
      fs.flatMap MLFeature.col_names := by
  induction fs generalizing qs with
  | nil => simp
  | cons f t ih =>
    cases qs with
    | nil => simp at hlen
    | cons q qt =>
      simp only [List.zip_cons_cons, List.map_cons, List.flatMap_cons]
      rw [hc f (List.mem_cons_self f t),
        ih qt (by simpa using hlen)
          (fun g hg p => hc g (List.mem_cons_of_mem f hg) p)]

/-- C6: for every constructed `Examples` set and every parameter list
passed to `get_all`, the joined dataset's columns are exactly the
providers' column blocks in the fixed order
[test-label, production-label, scaler, predictive …], and the first
block is always produced from the stored test-label parameters, whose
horizon is forced to one day — independent of the supplied list. -/
theorem thm_C6 (registry : String → List String → ℤ → DictP → MLFeature)
    (tickers : List String) (date : ℤ) (n0 : String) (p0 : DictP)
    (rest : List (String × DictP)) (ex : Examples)
    (qs : List (String × DictP)) (f0 : MLFeature) (frest : List MLFeature)
    (h : mkExamples registry tickers date ((n0, p0) :: rest) = some ex)
    (hfeat : ex.features = f0 :: frest)
    (hc : ∀ f ∈ ex.features, ∀ p, (f.get p).cols = f.col_names)
    (hlen : qs.length = frest.length) :
    (get_all ex qs).cols = ex.features.flatMap (fun f => f.col_names) ∧
    get_all ex qs =
      concatFrames (f0.get ex.test_labels_params ::
        (frest.zip qs).map (fun fp => fp.1.get fp.2.2)) ∧
    dictGet ex.test_labels_params "days" = some (PVal.int 1) := by
  have hshape : get_all ex qs =
      concatFrames (f0.get ex.test_labels_params ::
        (frest.zip qs).map (fun fp => fp.1.get fp.2.2)) := by
    unfold get_all
    rw [hfeat]
    rfl
  refine ⟨?_, hshape, ?_⟩
  · rw [hshape, concatFrames_cols, hfeat]
    simp only [List.flatMap_cons]
    rw [hc f0 (hfeat ▸ List.mem_cons_self f0 frest),
      cols_of_zip_get frest qs hlen
        (fun g hg p => hc g (hfeat ▸ List.mem_cons_of_mem f0 hg) p)]
  · simp only [mkExamples, Option.some.injEq] at h
    rw [← h]
    exact dictGet_dictSet_same p0 "days" (PVal.int 1)

theorem thm_C6_witness :
    (get_all exW psW).cols =
      exW.features.flatMap (fun f => f.col_names) ∧
    get_all exW psW =
      concatFrames
        ((constFeature "Label" ["Label"] (constTable [(1, 0)] 1)).get
            exW.test_labels_params ::
          ((exW.features.drop 1).zip psW).map
            (fun fp => fp.1.get fp.2.2)) ∧
    dictGet exW.test_labels_params "days" = some (PVal.int 1) :=
  thm_C6 regW ["A"] 1 "Label"
    [("days", PVal.int 20), ("div_share", PVal.rat 0)]
    [("Scaler", [("days", PVal.int 150)])] exW psW
    (constFeature "Label" ["Label"] (constTable [(1, 0)] 1))
    (exW.features.drop 1) rfl rfl
    (by
      intro f hf p
      simp only [exW, regW, psW, mkExamples, Option.getD_some,
        List.mem_cons, List.map_cons, List.map_nil,
        List.not_mem_nil, or_false] at hf
      rcases hf with rfl | rfl | rfl
      all_goals rfl)
    (by decide)

/-- C2 counterexample: on a concrete Example Set with providers
[test-label, label, scaler, momentum], `get_features_names` returns the
scaler column together with the predictive column, not the predictive
providers' columns only. -/
theorem thm_C2_counterexample :
    get_features_names exNames = ["STD", "MOM"] ∧
    specFeatureNames exNames = ["MOM"] ∧
    get_features_names exNames ≠ specFeatureNames exNames ∧
    (get_features_names exNames).length ≠ (specFeatureNames exNames).length :=
  ⟨by decide, by decide, by decide, by decide⟩

/-- C2 (amended): `get_features_names` returns the flattened column
names of every provider from position 2 on — the scaler's columns
followed by the predictive providers' columns — which coincides with the
pool feature-name list `df.columns[2:]` of the joined dataset (when the
two label providers have one column each), and its length is the number
of pool feature columns. -/
theorem thm_C2 (ex : Examples) (qs : List (String × DictP))
    (f0 f1 : MLFeature) (frest : List MLFeature)
    (hfeat : ex.features = f0 :: f1 :: frest)
    (hc : ∀ f ∈ ex.features, ∀ p, (f.get p).cols = f.col_names)
    (hlen : qs.length = frest.length + 1)
    (h0 : f0.col_names.length = 1) (h1 : f1.col_names.length = 1) :
    get_features_names ex = frest.flatMap (fun f => f.col_names) ∧
    get_features_names ex = (dropna (get_all ex qs)).cols.drop 2 ∧
    (get_features_names ex).length = (get_all ex qs).cols.length - 2 := by
  have hnames : get_features_names ex = frest.flatMap (fun f => f.col_names) := by
    unfold get_features_names
    rw [hfeat]
    rfl
  have hcols : (get_all ex qs).cols =
      f0.col_names ++ f1.col_names ++ frest.flatMap MLFeature.col_names := by
    unfold get_all
    rw [hfeat]
    change (concatFrames (f0.get ex.test_labels_params ::
      ((f1 :: frest).zip qs).map (fun fp => fp.1.get fp.2.2))).cols = _
    rw [concatFrames_cols]
    simp only [List.flatMap_cons]
    rw [hc f0 (hfeat ▸ List.mem_cons_self f0 (f1 :: frest)),
      cols_of_zip_get (f1 :: frest) qs (by simpa using hlen)
        (fun g hg p => hc g (hfeat ▸ List.mem_cons_of_mem f0 hg) p)]
    simp [List.flatMap_cons, List.append_assoc]
  obtain ⟨a, ha⟩ := List.length_eq_one.mp h0
  obtain ⟨b, hb⟩ := List.length_eq_one.mp h1
  refine ⟨hnames, ?_, ?_⟩
  · have : (dropna (get_all ex qs)).cols = (get_all ex qs).cols := rfl
    rw [this, hcols, ha, hb, hnames]
    rfl
  · rw [hcols, ha, hb, hnames]
    simp

lemma keyLE_fst_le {a b : Key} (h : keyLE a b) : a.1 ≤ b.1 := by
  unfold keyLE at h
  omega

lemma concatFrames_dates_sorted (fs : List Frame) :
    (frameDates (concatFrames fs)).Pairwise (· ≤ ·) := by
  unfold frameDates concatFrames
  simp only [List.map_map]
  exact
    (List.sorted_insertionSort keyLE _).map _ (fun a b h => keyLE_fst_le h)

lemma dropna_dates_sorted (df : Frame)
    (h : (frameDates df).Pairwise (· ≤ ·)) :
    (frameDates (dropna df)).Pairwise (· ≤ ·) := by
  unfold frameDates dropna at *
  exact List.Pairwise.sublist ((List.filter_sublist df.rows).map _) h

lemma clean_dates_sorted (ex : Examples) (ps : List (String × DictP)) :
    (frameDates (dropna (get_all ex ps))).Pairwise (· ≤ ·) :=
  dropna_dates_sorted _ (concatFrames_dates_sorted _)

lemma dedup_sorted_strict (l : List ℤ) (h : l.Pairwise (· ≤ ·)) :
    l.dedup.Pairwise (· < ·) := by
  have hs : l.dedup.Pairwise (· ≤ ·) :=
    List.Pairwise.sublist (List.dedup_sublist l) h
  have hn : l.dedup.Pairwise (· ≠ ·) := List.nodup_dedup l
  exact (hs.and hn).imp (fun hab => lt_of_le_of_ne hab.1 hab.2)

lemma pyIdx_neg_inv {α : Type} (l : List α) (k : ℤ) (hk : 1 ≤ k) (a : α)
    (h : pyIdx l (-k) = some a) :
    k.toNat ≤ l.length ∧ l.get? (l.length - k.toNat) = some a := by
  unfold pyIdx at h
  rw [if_neg (by omega)] at h
  simp only [neg_neg] at h
  by_cases hb : k.toNat ≤ l.length
  · rw [if_pos hb] at h
    exact ⟨hb, h⟩
  · rw [if_neg hb] at h
    exact absurd h (by simp)

lemma filter_gt_length (u : List ℤ) (hs : u.Pairwise (· < ·)) (i : ℕ)
    (hi : i < u.length) (te : ℤ) (hte : u[i] = te) :
    (u.filter (fun d => te < d)).length = u.length - (i + 1) := by
  have hsplit := List.take_append_drop (i + 1) u
  have hpw := List.pairwise_iff_getElem.mp hs
  have htake : (u.take (i + 1)).filter (fun d => te < d) = [] := by
    rw [List.filter_eq_nil_iff]
    intro x hx
    obtain ⟨j, hj, hxj⟩ := List.mem_iff_getElem.mp hx
    have hjlen : j < u.length := lt_of_lt_of_le hj (by simp)
    have hj' : j ≤ i := by
      have := hj
      simp only [List.length_take] at this
      omega
    have hxu : u[j] = x := by rw [← hxj, List.getElem_take]
    simp only [decide_eq_true_eq]
    rcases lt_or_eq_of_le hj' with hlt | heq
    · have := hpw j i hjlen hi hlt
      omega
    · subst heq
      omega
  have hdrop : (u.drop (i + 1)).filter (fun d => te < d) = u.drop (i + 1) := by
    rw [List.filter_eq_self]
    intro x hx
    obtain ⟨j, hj, hxj⟩ := List.mem_iff_getElem.mp hx
    have hjlen : i + 1 + j < u.length := by
      have := hj
      simp only [List.length_drop] at this
      omega
    have hxu : u[i + 1 + j] = x := by
      rw [← hxj]
      exact (List.getElem_drop u).symm
    have := hpw i (i + 1 + j) hi hjlen (by omega)
    simp only [decide_eq_true_eq]
    omega
  calc (u.filter (fun d => te < d)).length
      = ((u.take (i + 1) ++ u.drop (i + 1)).filter
          (fun d => te < d)).length := by rw [hsplit]
    _ = u.length - (i + 1) := by
        rw [List.filter_append, htake, hdrop]
        simp

lemma train_val_unfold (ex : Examples) (ps : List (String × DictP))
    (tp vp : Pool) (h : train_val_pool_params ex ps = some (tp, vp)) :
    ∃ p0 k v te, ps.head? = some p0 ∧
      dictGet p0.2 "days" = some (PVal.int k) ∧
      (frameDates (dropna (get_all ex ps))).get?
        (trainValSplitIdx (frameDates (dropna (get_all ex ps))).length) =
        some v ∧
      pyIdx (((frameDates (dropna (get_all ex ps))).filter
        (fun d => d < v)).dedup) (-k) = some te ∧
      tp = mkTrainPool
        ((dropna (get_all ex ps)).rows.filter (fun r => r.1.1 ≤ te))
        (dropna (get_all ex ps)).cols (categorical_features ex ps) ∧
      vp = mkTrainPool
        ((dropna (get_all ex ps)).rows.filter (fun r => v ≤ r.1.1))
        (dropna (get_all ex ps)).cols (categorical_features ex ps) := by
  unfold train_val_pool_params at h
  simp only [bind, Option.bind_eq_some, pure, Option.some.injEq] at h
  obtain ⟨p0, hp0, dv, hdv, k, hkk, blocks, hblocks, h⟩ := h
  unfold trainValSplit at hblocks
  simp only [bind, Option.bind_eq_some, pure, Option.some.injEq] at hblocks
  obtain ⟨v, hv, te, hte, hblocks⟩ := hblocks
  have hk' : dictGet p0.2 "days" = some (PVal.int k) := by
    cases dv with
    | int z =>
      simp only [pvalInt, Option.some.injEq] at hkk
      rw [hdv, hkk]
    | rat q => simp [pvalInt] at hkk
    | str s => simp [pvalInt] at hkk
  obtain ⟨h1, h2⟩ := Prod.mk.injEq _ _ _ _ ▸ h
  refine ⟨p0, k, v, te, hp0, hk', hv, hte, ?_, ?_⟩
  · rw [← h1, ← hblocks]
  · rw [← h2, ← hblocks]

/-- Fallback pool value for extracting `Option` results. -/
def emptyPool : Pool :=
  { data := [], label := none, weight := [], cat_features := [],
    feature_names := [] }

/-- Training pool of the ten-date instance. -/
def tpTen : Pool :=
  ((train_val_pool_params exTen psTen).getD (emptyPool, emptyPool)).1

/-- Validation pool of the ten-date instance. -/
def vpTen : Pool :=
  ((train_val_pool_params exTen psTen).getD (emptyPool, emptyPool)).2

lemma mem_mkTrainPool_data {rows : List (Key × List (Option ℚ))}
    {cols : List String} {cats : List ℕ} {r : Key × List (Option ℚ)} :
    r ∈ (mkTrainPool rows cols cats).data ↔
      ∃ s ∈ rows, (s.1, s.2.drop 2) = r := by
  simp [mkTrainPool]

lemma date_mem_rows {df : Frame} {d : ℤ} (h : d ∈ frameDates df) :
    ∃ s ∈ df.rows, s.1.1 = d := by
  unfold frameDates at h
  exact List.mem_map.mp h

lemma get?_mem {α : Type} {l : List α} {i : ℕ} {a : α}
    (h : l.get? i = some a) : a ∈ l := by
  rw [List.get?_eq_getElem?, List.getElem?_eq_some] at h
  obtain ⟨hi, hval⟩ := h
  exact hval ▸ List.getElem_mem hi

/-- C1 (amended): the leakage rollback of `train_val_pool_params` keeps
the boundary date itself in training: the training block's maximum date
is the `label_days`-th distinct pre-split date counting back from the
validation start (included via `dates <= train_end`), so it is strictly
earlier than the validation minimum with exactly `label_days - 1`
distinct dates strictly between the two blocks — not `label_days`. -/
theorem thm_C1 (ex : Examples) (n0 : String) (p0 : DictP)
    (rest : List (String × DictP)) (k : ℤ) (tp vp : Pool) (v te : ℤ)
    (hk : dictGet p0 "days" = some (PVal.int k)) (hk1 : 1 ≤ k)
    (h : train_val_pool_params ex ((n0, p0) :: rest) = some (tp, vp))
    (hv : (frameDates (dropna (get_all ex ((n0, p0) :: rest)))).get?
      (trainValSplitIdx
        (frameDates (dropna (get_all ex ((n0, p0) :: rest)))).length) =
      some v)
    (hte : pyIdx (((frameDates (dropna (get_all ex ((n0, p0) :: rest)))).filter
      (fun d => d < v)).dedup) (-k) = some te) :
    (∀ r ∈ tp.data, r.1.1 ≤ te) ∧
    (∃ r ∈ tp.data, r.1.1 = te) ∧
    te < v ∧
    (∀ r ∈ vp.data, v ≤ r.1.1) ∧
    (∃ r ∈ vp.data, r.1.1 = v) ∧
    (((frameDates (dropna (get_all ex ((n0, p0) :: rest)))).filter
        (fun d => d < v)).dedup.filter (fun d => te < d)).length =
      k.toNat - 1 := by
  obtain ⟨p0', k', v', te', hp0, hk2, hv2, hte2, htp, hvp⟩ :=
    train_val_unfold ex ((n0, p0) :: rest) tp vp h
  simp only [List.head?_cons, Option.some.injEq] at hp0
  subst hp0
  rw [hk] at hk2
  have hkeq : k = k' := by simpa using hk2
  subst hkeq
  rw [hv] at hv2
  have hveq : v = v' := by simpa using hv2
  subst hveq
  rw [hte] at hte2
  have hteeq : te = te' := by simpa using hte2
  subst hteeq
  have hu := pyIdx_neg_inv _ k hk1 te hte
  have hte_mem_u : te ∈ ((frameDates (dropna (get_all ex ((n0, p0) :: rest)))).filter
      (fun d => d < v)).dedup := get?_mem hu.2
  have hte_mem_f := List.mem_dedup.mp hte_mem_u
  have hte_dates := List.mem_filter.mp hte_mem_f
  have htev : te < v := by
    have := hte_dates.2
    simpa using this
  refine ⟨?_, ?_, htev, ?_, ?_, ?_⟩
  · intro r hr
    rw [htp] at hr
    obtain ⟨s, hs, hsr⟩ := mem_mkTrainPool_data.mp hr
    have := (List.mem_filter.mp hs).2
    rw [← hsr]
    simpa using this
  · obtain ⟨s, hs, hsd⟩ := date_mem_rows hte_dates.1
    refine ⟨(s.1, s.2.drop 2), ?_, hsd⟩
    rw [htp]
    exact mem_mkTrainPool_data.mpr
      ⟨s, List.mem_filter.mpr ⟨hs, by simp [hsd]⟩, rfl⟩
  · intro r hr
    rw [hvp] at hr
    obtain ⟨s, hs, hsr⟩ := mem_mkTrainPool_data.mp hr
    have := (List.mem_filter.mp hs).2
    rw [← hsr]
    simpa using this
  · have hvdates : v ∈ frameDates (dropna (get_all ex ((n0, p0) :: rest))) :=
      get?_mem hv
    obtain ⟨s, hs, hsd⟩ := date_mem_rows hvdates
    refine ⟨(s.1, s.2.drop 2), ?_, hsd⟩
    rw [hvp]
    exact mem_mkTrainPool_data.mpr
      ⟨s, List.mem_filter.mpr ⟨hs, by simp [hsd]⟩, rfl⟩
  · have hsorted : ((frameDates (dropna (get_all ex ((n0, p0) :: rest)))).filter
        (fun d => d < v)).dedup.Pairwise (· < ·) :=
      dedup_sorted_strict _
        (List.Pairwise.sublist (List.filter_sublist _)
          (clean_dates_sorted ex ((n0, p0) :: rest)))
    have hlenk := hu.1
    have hget := hu.2
    rw [List.get?_eq_getElem?, List.getElem?_eq_some] at hget
    obtain ⟨hilt, hival⟩ := hget
    have hk1n : 1 ≤ k.toNat := by omega
    have := filter_gt_length _ hsorted _ hilt te hival
    rw [this]
    omega

/-- C1 counterexample: on ten dates with `label_days = 2`, the training
block runs up to date 8 while validation starts at date 10 — only one
distinct date (9) lies strictly between the blocks and date 8, the
second-to-last pre-split date, is itself retained in training, so the
last `label_days = 2` distinct pre-split dates are not excluded. -/
theorem thm_C1_counterexample :
    dictGet [("days", PVal.int 2)] "days" = some (PVal.int 2) ∧
    (train_val_pool_params exTen psTen).map
        (fun pr => (pr.1.data.map (fun r => r.1.1),
                    pr.2.data.map (fun r => r.1.1))) =
      some ([1, 2, 3, 4, 5, 6, 7, 8], [10]) ∧
    ((frameDates (dropna (get_all exTen psTen))).dedup.filter
        (fun d => 8 < d ∧ d < 10)) = [9] := by
  refine ⟨by decide, by decide, by decide⟩

theorem thm_C1_witness :
    (∀ r ∈ tpTen.data, r.1.1 ≤ (8 : ℤ)) ∧
    (∃ r ∈ tpTen.data, r.1.1 = (8 : ℤ)) ∧
    (8 : ℤ) < 10 ∧
    (∀ r ∈ vpTen.data, (10 : ℤ) ≤ r.1.1) ∧
    (∃ r ∈ vpTen.data, r.1.1 = (10 : ℤ)) ∧
    (((frameDates (dropna (get_all exTen psTen))).filter
        (fun d => d < (10 : ℤ))).dedup.filter (fun d => (8 : ℤ) < d)).length =
      (2 : ℤ).toNat - 1 :=
  thm_C1 exTen "Label" [("days", PVal.int 2)]
    [("Scaler", [("days", PVal.int 150)])] 2 tpTen vpTen 10 8
    (by decide) (by decide) rfl (by decide) (by decide)

/-- Training pool of the skewed-percentile instance. -/
def tpSkew : Pool :=
  ((train_val_pool_params exSkew psSkew).getD (emptyPool, emptyPool)).1

/-- Validation pool of the skewed-percentile instance. -/
def vpSkew : Pool :=
  ((train_val_pool_params exSkew psSkew).getD (emptyPool, emptyPool)).2

/-- C3 (amended): `train_val_pool_params` picks the split date at the
90 % position of the per-row date sequence of the cleaned dataset
(duplicate dates counted once per row, not the distinct-date list); the
validation block is exactly the rows dated at or after that split date,
and every training row is strictly earlier (training is further
truncated by the leakage rollback). -/
theorem thm_C3 (ex : Examples) (n0 : String) (p0 : DictP)
    (rest : List (String × DictP)) (tp vp : Pool) (v : ℤ)
    (h : train_val_pool_params ex ((n0, p0) :: rest) = some (tp, vp))
    (hv : (frameDates (dropna (get_all ex ((n0, p0) :: rest)))).get?
      (trainValSplitIdx
        (frameDates (dropna (get_all ex ((n0, p0) :: rest)))).length) =
      some v) :
    vp.data = ((dropna (get_all ex ((n0, p0) :: rest))).rows.filter
        (fun r => v ≤ r.1.1)).map (fun r => (r.1, r.2.drop 2)) ∧
    (∃ r ∈ vp.data, r.1.1 = v) ∧
    (∀ r ∈ tp.data, r.1.1 < v) := by
  obtain ⟨p0', k', v', te', hp0, hk2, hv2, hte2, htp, hvp⟩ :=
    train_val_unfold ex ((n0, p0) :: rest) tp vp h
  rw [hv] at hv2
  have hveq : v = v' := by simpa using hv2
  subst hveq
  have hte_mem_u : te' ∈ ((frameDates (dropna (get_all ex ((n0, p0) :: rest)))).filter
      (fun d => d < v)).dedup := by
    unfold pyIdx at hte2
    split at hte2
    · exact get?_mem hte2
    · split at hte2
      · exact get?_mem hte2
      · exact absurd hte2 (by simp)
  have htev : te' < v := by
    have := (List.mem_filter.mp (List.mem_dedup.mp hte_mem_u)).2
    simpa using this
  refine ⟨?_, ?_, ?_⟩
  · rw [hvp]
    rfl
  · have hvdates : v ∈ frameDates (dropna (get_all ex ((n0, p0) :: rest))) :=
      get?_mem hv
    obtain ⟨s, hs, hsd⟩ := date_mem_rows hvdates
    refine ⟨(s.1, s.2.drop 2), ?_, hsd⟩
    rw [hvp]
    exact mem_mkTrainPool_data.mpr
      ⟨s, List.mem_filter.mpr ⟨hs, by simp [hsd]⟩, rfl⟩
  · intro r hr
    rw [htp] at hr
    obtain ⟨s, hs, hsr⟩ := mem_mkTrainPool_data.mp hr
    have hle := (List.mem_filter.mp hs).2
    rw [← hsr]
    simp only [decide_eq_true_eq] at hle
    exact lt_of_le_of_lt hle htev

/-- C3 counterexample: with seventeen securities on the first date and
one on each of three later dates, the 90th percentile of the distinct
dates is 4, yet the produced validation block contains the row dated 3 —
the split point actually comes from the duplicated row-date sequence,
which lands on 3. -/
theorem thm_C3_counterexample :
    specDistinctSplit (dropna (get_all exSkew psSkew)) = some 4 ∧
    (train_val_pool_params exSkew psSkew).map
        (fun pr => pr.2.data.map (fun r => r.1)) =
      some [(3, 0), (4, 0)] ∧
    ((dropna (get_all exSkew psSkew)).rows.filter
        (fun r => (4 : ℤ) ≤ r.1.1)).map (fun r => r.1) = [(4, 0)] ∧
    ¬ ((4 : ℤ) ≤ 3) := by
  refine ⟨by decide, by decide, by decide, by decide⟩

theorem thm_C3_witness :
    vpSkew.data = ((dropna (get_all exSkew psSkew)).rows.filter
        (fun r => (3 : ℤ) ≤ r.1.1)).map (fun r => (r.1, r.2.drop 2)) ∧
    (∃ r ∈ vpSkew.data, r.1.1 = (3 : ℤ)) ∧
    (∀ r ∈ tpSkew.data, r.1.1 < (3 : ℤ)) :=
  thm_C3 exSkew "Label" [("days", PVal.int 1)]
    [("Scaler", [("days", PVal.int 150)])] tpSkew vpSkew 3 rfl (by decide)

lemma dropna_cells_isSome {df : Frame} {s : Key × List (Option ℚ)}
    (hs : s ∈ (dropna df).rows) : ∀ c ∈ s.2, c.isSome = true := by
  unfold dropna at hs
  have hall := (List.mem_filter.mp hs).2
  rw [List.all_eq_true] at hall
  exact hall

lemma mkTrainPool_weight_eq (rows : List (Key × List (Option ℚ)))
    (cols : List String) (cats : List ℕ) :
    (mkTrainPool rows cols cats).weight =
      (mkTrainPool rows cols cats).data.map
        (fun r => invSqWeight (r.2.getD 0 none)) := by
  simp only [mkTrainPool, List.map_map]
  apply List.map_congr_left
  intro s _
  simp [Function.comp, List.getD_eq_getElem?_getD, List.getElem?_drop]

lemma mkPredictPool_weight_eq (rows : List (Key × List (Option ℚ)))
    (cols : List String) (cats : List ℕ) :
    (mkPredictPool rows cols cats).weight =
      (mkPredictPool rows cols cats).data.map
        (fun r => invSqWeight (r.2.getD 0 none)) := by
  simp only [mkPredictPool, List.map_map]
  apply List.map_congr_left
  intro s _
  simp [Function.comp, List.getD_eq_getElem?_getD, List.getElem?_drop]

/-- C5 (amended): the train/validation pools and the production-fit
training pool are built from rows with every missing value dropped, so
their weights `1/scaler²` are never computed on a missing scaler cell;
but no pool filters zero scaler values, and the prediction pool drops no
rows at all — its weight vector is computed straight over the as-of-date
rows, missing or zero scalers included. -/
theorem thm_C5 (ex : Examples) (ps : List (String × DictP)) (tp vp : Pool)
    (h : train_val_pool_params ex ps = some (tp, vp)) :
    (∀ r ∈ tp.data, ∀ c ∈ r.2, c.isSome = true) ∧
    (∀ r ∈ vp.data, ∀ c ∈ r.2, c.isSome = true) ∧
    (∀ r ∈ (train_predict_pool_params ex).1.data,
      ∀ c ∈ r.2, c.isSome = true) ∧
    tp.weight = tp.data.map (fun r => invSqWeight (r.2.getD 0 none)) ∧
    vp.weight = vp.data.map (fun r => invSqWeight (r.2.getD 0 none)) ∧
    (train_predict_pool_params ex).1.weight =
      (train_predict_pool_params ex).1.data.map
        (fun r => invSqWeight (r.2.getD 0 none)) ∧
    (train_predict_pool_params ex).2.weight =
      (train_predict_pool_params ex).2.data.map
        (fun r => invSqWeight (r.2.getD 0 none)) := by
  obtain ⟨p0', k', v', te', hp0, hk2, hv2, hte2, htp, hvp⟩ :=
    train_val_unfold ex ps tp vp h
  have hmem :
      ∀ (p : Key × List (Option ℚ) → Bool) (r : Key × List (Option ℚ)),
        r ∈ (mkTrainPool ((dropna (get_all ex ps)).rows.filter p)
          (dropna (get_all ex ps)).cols (categorical_features ex ps)).data →
        ∀ c ∈ r.2, c.isSome = true := by
    intro p r hr c hc
    obtain ⟨s, hs, hsr⟩ := mem_mkTrainPool_data.mp hr
    have hsd := dropna_cells_isSome (List.mem_filter.mp hs).1
    rw [← hsr] at hc
    exact hsd c ((List.drop_sublist 2 s.2).subset hc)
  refine ⟨?_, ?_, ?_, ?_, ?_, ?_, ?_⟩
  · intro r hr
    exact hmem _ r (htp ▸ hr)
  · intro r hr
    exact hmem _ r (hvp ▸ hr)
  · intro r hr c hc
    have hr' : r ∈ (mkTrainPool (dropna (get_all ex ex.params)).rows
        (get_all ex ex.params).cols
        (categorical_features ex ex.params)).data := hr
    obtain ⟨s, hs, hsr⟩ := mem_mkTrainPool_data.mp hr'
    have hsd := dropna_cells_isSome hs
    rw [← hsr] at hc
    exact hsd c ((List.drop_sublist 2 s.2).subset hc)
  · rw [htp]
    exact mkTrainPool_weight_eq _ _ _
  · rw [hvp]
    exact mkTrainPool_weight_eq _ _ _
  · exact mkTrainPool_weight_eq _ _ _
  · exact mkPredictPool_weight_eq _ _ _

/-- C5 counterexample: on the concrete instance whose scaler provider
has no row at the as-of date and reports zero on date 1, the prediction
pool keeps the as-of row with a missing scaler cell (weight entry not a
finite number), and the production training pool keeps the zero-scaler
row — neither row is dropped before the weight vector is built. -/
theorem thm_C5_counterexample :
    (train_predict_pool_params exScaler).2.data = [((3, 0), [none])] ∧
    (train_predict_pool_params exScaler).2.weight = [none] ∧
    (train_predict_pool_params exScaler).1.data.get? 0 =
      some ((1, 0), [some 0]) ∧
    (train_predict_pool_params exScaler).1.weight.get? 0 = some none := by
  refine ⟨by decide, by decide, by decide, by decide⟩

/-- Training pool of the scaler instance's train/val split. -/
def tpScaler : Pool :=
  ((train_val_pool_params exScaler psSkew).getD (emptyPool, emptyPool)).1

/-- Validation pool of the scaler instance's train/val split. -/
def vpScaler : Pool :=
  ((train_val_pool_params exScaler psSkew).getD (emptyPool, emptyPool)).2

theorem thm_C5_witness :
    (∀ r ∈ tpScaler.data, ∀ c ∈ r.2, c.isSome = true) ∧
    (∀ r ∈ vpScaler.data, ∀ c ∈ r.2, c.isSome = true) ∧
    (∀ r ∈ (train_predict_pool_params exScaler).1.data,
      ∀ c ∈ r.2, c.isSome = true) ∧
    tpScaler.weight =
      tpScaler.data.map (fun r => invSqWeight (r.2.getD 0 none)) ∧
    vpScaler.weight =
      vpScaler.data.map (fun r => invSqWeight (r.2.getD 0 none)) ∧
    (train_predict_pool_params exScaler).1.weight =
      (train_predict_pool_params exScaler).1.data.map
        (fun r => invSqWeight (r.2.getD 0 none)) ∧
    (train_predict_pool_params exScaler).2.weight =
      (train_predict_pool_params exScaler).2.data.map
        (fun r => invSqWeight (r.2.getD 0 none)) :=
  thm_C5 exScaler psSkew tpScaler vpScaler rfl

theorem thm_C2_witness :
    get_features_names exNames =
      (exNames.features.drop 2).flatMap (fun f => f.col_names) ∧
    get_features_names exNames =
      (dropna (get_all exNames exNames.params)).cols.drop 2 ∧
    (get_features_names exNames).length =
      (get_all exNames exNames.params).cols.length - 2 :=
  thm_C2 exNames exNames.params
    (constFeature "Label" ["LABEL"] (constTable [(1, 0)] 1))
    (constFeature "Label" ["LABEL"] (constTable [(1, 0)] 2))
    (exNames.features.drop 2) rfl
    (by
      intro f hf p
      simp only [exNames, List.mem_cons, List.not_mem_nil, or_false] at hf
      rcases hf with rfl | rfl | rfl | rfl
      all_goals rfl)
    (by decide) (by decide) (by decide)

lemma candleLE_begin_le {a b : Candle} (h : candleLE a b) :
    a.begin ≤ b.begin := by
  rcases h with h | ⟨h, _⟩
  · omega
  · omega

lemma pairwise_drop_mid {last x : Candle} {t : List Candle}
    (hs : (last :: x :: t).Pairwise candleLE) :
    (last :: t).Pairwise candleLE := by
  rcases List.pairwise_cons.mp hs with ⟨h1, h2⟩
  have h3 := (List.pairwise_cons.mp h2).2
  exact List.pairwise_cons.mpr
    ⟨fun b hb => h1 b (List.mem_cons_of_mem x hb), h3⟩

lemma cleanGo_subset (last : Candle) (l : List Candle) :
    ∀ r ∈ cleanGo last l, r ∈ l := by
  induction l generalizing last with
  | nil => simp [cleanGo]
  | cons x t ih =>
    intro r hr
    rw [cleanGo] at hr
    by_cases hb : x.begin = last.begin
    · rw [if_pos hb] at hr
      exact List.mem_cons_of_mem x (ih last r hr)
    · rw [if_neg hb] at hr
      rcases List.mem_cons.mp hr with rfl | hr'
      · exact List.mem_cons_self r t
      · exact List.mem_cons_of_mem x (ih x r hr')

lemma cleanGo_begin_gt (last : Candle) (l : List Candle)
    (hs : (last :: l).Pairwise candleLE) :
    ∀ r ∈ cleanGo last l, last.begin < r.begin := by
  induction l generalizing last with
  | nil => simp [cleanGo]
  | cons x t ih =>
    intro r hr
    rw [cleanGo] at hr
    by_cases hb : x.begin = last.begin
    · rw [if_pos hb] at hr
      exact ih last (pairwise_drop_mid hs) r hr
    · rw [if_neg hb] at hr
      have hlx : candleLE last x :=
        (List.pairwise_cons.mp hs).1 x (List.mem_cons_self x t)
      have hlt : last.begin < x.begin := by
        rcases hlx with hlt | ⟨he, _⟩
        · exact hlt
        · exact absurd he.symm hb
      rcases List.mem_cons.mp hr with rfl | hr'
      · exact hlt
      · exact lt_trans hlt (ih x (List.pairwise_cons.mp hs).2 r hr')

lemma cleanGo_covers (last : Candle) (l : List Candle) :
    ∀ s ∈ l, s.begin = last.begin ∨
      ∃ r ∈ cleanGo last l, r.begin = s.begin := by
  induction l generalizing last with
  | nil => simp
  | cons x t ih =>
    intro s hs
    rw [cleanGo]
    by_cases hb : x.begin = last.begin
    · rw [if_pos hb]
      rcases List.mem_cons.mp hs with rfl | hs'
      · exact Or.inl hb
      · exact ih last s hs'
    · rw [if_neg hb]
      rcases List.mem_cons.mp hs with rfl | hs'
      · exact Or.inr ⟨s, List.mem_cons_self s _, rfl⟩
      · rcases ih x s hs' with h | ⟨r, hr, hrb⟩
        · exact Or.inr ⟨x, List.mem_cons_self x _, h.symm⟩
        · exact Or.inr ⟨r, List.mem_cons_of_mem x hr, hrb⟩

lemma cleanGo_value_max (last : Candle) (l : List Candle)
    (hs : (last :: l).Pairwise candleLE) :
    ∀ r ∈ cleanGo last l, ∀ s ∈ last :: l, s.begin = r.begin →
      s.value ≤ r.value := by
  induction l generalizing last with
  | nil => simp [cleanGo]
  | cons x t ih =>
    intro r hr s hsmem hsb
    rw [cleanGo] at hr
    by_cases hb : x.begin = last.begin
    · rw [if_pos hb] at hr
      have hs' := pairwise_drop_mid hs
      rcases List.mem_cons.mp hsmem with hseq | hsmem'
      · exact ih last hs' r hr s
          (by rw [hseq]; exact List.mem_cons_self last t) hsb
      rcases List.mem_cons.mp hsmem' with hseq | hsmem''
      · exfalso
        have hgt := cleanGo_begin_gt last t hs' r hr
        have h1 : s.begin = x.begin := by rw [hseq]
        omega
      · exact ih last hs' r hr s (List.mem_cons_of_mem last hsmem'') hsb
    · rw [if_neg hb] at hr
      have hsx : (x :: t).Pairwise candleLE := (List.pairwise_cons.mp hs).2
      rcases List.mem_cons.mp hr with rfl | hr'
      · rcases List.mem_cons.mp hsmem with rfl | hsmem'
        · exact absurd hsb.symm hb
        rcases List.mem_cons.mp hsmem' with rfl | hsmem''
        · exact le_refl _
        · have hxs : candleLE r s :=
            (List.pairwise_cons.mp hsx).1 s hsmem''
          rcases hxs with hlt | ⟨_, hv⟩
          · omega
          · exact hv
      · rcases List.mem_cons.mp hsmem with rfl | hsmem'
        · exfalso
          have hgt := cleanGo_begin_gt x t hsx r hr'
          have hlx : candleLE s x :=
            (List.pairwise_cons.mp hs).1 x (List.mem_cons_self x t)
          have := candleLE_begin_le hlx
          omega
        · exact ih x hsx r hr' s hsmem' hsb

lemma cleanGo_sorted (last : Candle) (l : List Candle)
    (hs : (last :: l).Pairwise candleLE) :
    (last :: cleanGo last l).Pairwise (fun a b => a.begin < b.begin) := by
  induction l generalizing last with
  | nil => simp [cleanGo]
  | cons x t ih =>
    rw [cleanGo]
    by_cases hb : x.begin = last.begin
    · rw [if_pos hb]
      exact ih last (pairwise_drop_mid hs)
    · rw [if_neg hb]
      have hxt : (x :: t).Pairwise candleLE := (List.pairwise_cons.mp hs).2
      have hx := ih x hxt
      have hlx : candleLE last x :=
        (List.pairwise_cons.mp hs).1 x (List.mem_cons_self x t)
      have hlt : last.begin < x.begin := by
        rcases hlx with hlt | ⟨he, _⟩
        · exact hlt
        · exact absurd he.symm hb
      rw [List.pairwise_cons]
      refine ⟨?_, hx⟩
      intro b hb'
      rcases List.mem_cons.mp hb' with rfl | hb''
      · exact hlt
      · exact lt_trans hlt (cleanGo_begin_gt x t hxt b hb'')

/-- C10: `Quotes._clean_up` returns rows whose trade dates are strictly
increasing (so unique and in non-decreasing order); every returned row
comes from the input, every input date is represented by exactly one
returned row, and the retained row of each date carries the maximum
turnover among the input rows of that date. -/
theorem thm_C10 (data : List Candle) :
    (clean_up data).Pairwise (fun a b => a.begin < b.begin) ∧
    (∀ r ∈ clean_up data, r ∈ data) ∧
    (∀ s ∈ data, ∃ r ∈ clean_up data, r.begin = s.begin) ∧
    (∀ r ∈ clean_up data, ∀ s ∈ data, s.begin = r.begin →
      s.value ≤ r.value) := by
  unfold clean_up
  have hperm := List.perm_insertionSort candleLE data
  have hsorted := List.sorted_insertionSort candleLE data
  cases hsort : data.insertionSort candleLE with
  | nil =>
    rw [hsort] at hperm
    have hnil : data = [] := hperm.symm.eq_nil
    subst hnil
    simp
  | cons r rest =>
    rw [hsort] at hperm hsorted
    refine ⟨cleanGo_sorted r rest hsorted, ?_, ?_, ?_⟩
    · intro x hx
      rcases List.mem_cons.mp hx with rfl | hx'
      · exact hperm.subset (List.mem_cons_self x rest)
      · exact hperm.subset
          (List.mem_cons_of_mem r (cleanGo_subset r rest x hx'))
    · intro s hs
      have hs' : s ∈ r :: rest := hperm.mem_iff.mpr hs
      rcases List.mem_cons.mp hs' with rfl | hs''
      · exact ⟨s, List.mem_cons_self s _, rfl⟩
      · rcases cleanGo_covers r rest s hs'' with h | ⟨q, hq, hqb⟩
        · exact ⟨r, List.mem_cons_self r _, h.symm⟩
        · exact ⟨q, List.mem_cons_of_mem r hq, hqb⟩
    · intro x hx s hs hsb
      have hs' : s ∈ r :: rest := hperm.mem_iff.mpr hs
      rcases List.mem_cons.mp hx with rfl | hx'
      · rcases List.mem_cons.mp hs' with rfl | hs''
        · exact le_refl _
        · have hxs : candleLE x s :=
            (List.pairwise_cons.mp hsorted).1 s hs''
          rcases hxs with hlt | ⟨_, hv⟩
          · omega
          · exact hv
      · exact cleanGo_value_max r rest hsorted x hx' s hs' hsb

theorem thm_C10_witness :
    (∃ r ∈ clean_up [⟨1, 7, 0⟩, ⟨2, 3, 1⟩, ⟨1, 5, 2⟩],
      r.begin = (⟨1, 5, 2⟩ : Candle).begin) ∧
    (⟨1, 5, 2⟩ : Candle).value ≤ (⟨1, 7, 0⟩ : Candle).value :=
  ⟨(thm_C10 [⟨1, 7, 0⟩, ⟨2, 3, 1⟩, ⟨1, 5, 2⟩]).2.2.1 ⟨1, 5, 2⟩ (by decide),
   (thm_C10 [⟨1, 7, 0⟩, ⟨2, 3, 1⟩, ⟨1, 5, 2⟩]).2.2.2 ⟨1, 7, 0⟩ (by decide)
     ⟨1, 5, 2⟩ (by decide) (by decide)⟩
